import Mathlib

/-!
Verification of the tau-leaping core of GillesPy2's C++ solvers
(`tau_hybrid_cpp_solver/Tau.cpp`, `tau_leaping_cpp_solver/TauLeapingSimulation.cpp`).

The C++ code is shallowly embedded: `double` becomes `ℚ` (exact arithmetic),
`std::map` keyed by species or reaction names becomes a total function on
indices with the C++ default value (names are assumed distinct in a validated
model, so indices are faithful keys), `std::set<Species>` becomes a
duplicate-free list of species indices, and the three bound-factor lambdas
installed by `initialize` become an inductive type with an `eval` function,
since the closures capture nothing.  The iterate-and-erase loop that consumes
`g_i_lambdas` in `select` is modelled by its net effect: every pending entry is
evaluated once and removed.  `get_reactions` is embedded with explicit state
passing for the random device and an abstract Poisson sampler, because the
`std::poisson_distribution` algorithm is implementation defined; only its
sampling contract (one draw advancing the generator) is used, matching the
scope set by the specification.
-/

namespace GillesPy

/-- A reaction: its stoichiometric change vector, indexed by species. -/
structure Reaction where
  species_change : List Int
deriving DecidableEq

/-- The reaction-network model fields read by `Tau.cpp`. -/
structure Model where
  number_species : Nat
  number_reactions : Nat
  reactions : List Reaction
deriving DecidableEq

/-- Stoichiometric change of species `t` in reaction `r` (0 outside the model). -/
def chg (m : Model) (r t : Nat) : Int :=
  ((m.reactions.getD r ⟨[]⟩).species_change.getD t 0)

/-- A model is well formed when the list lengths match the declared counts. -/
def Model.WF (m : Model) : Prop :=
  m.reactions.length = m.number_reactions ∧
    ∀ rx ∈ m.reactions, rx.species_change.length = m.number_species

instance (m : Model) : Decidable m.WF := by
  unfold Model.WF; infer_instance

/-- `propensity_values[r]`, with the C++ `std::vector` read at index `r`. -/
def propAt (props : List ℚ) (r : Nat) : ℚ := props.getD r 0

/-- `current_state[t]` as a rational (the C++ code casts the int to double). -/
def stateAt (state : List Int) (t : Nat) : ℚ := ((state.getD t 0 : Int) : ℚ)

/-- The three closures stored in `g_i_lambdas` by `initialize`. -/
inductive GiLambda
  | g22  -- installed when count = 2 and rxn_order = 2
  | g23  -- installed when count = 2 and rxn_order = 3
  | g3   -- installed when count = 3
deriving DecidableEq

/-- Evaluation of the stored closures.  In `g23` the C++ source writes
`(3 / 2) * (2 + (1 / (x - 1)))` where `3 / 2` is integer division, so the
factor is `1`, not `1.5`; the embedding keeps the integer division visible. -/
def GiLambda.eval : GiLambda → ℚ → ℚ
  | .g22, x => 2 + 1 / (x - 1)
  | .g23, x => ((((3 : Int) / 2) : Int) : ℚ) * (2 + 1 / (x - 1))
  | .g3, x => 3 + 1 / (x - 1) + 2 / (x - 2)

/-- The C++ conversion from `double` to `int`: truncation toward zero. -/
def truncD2I (q : ℚ) : Int := if 0 ≤ q then ⌊q⌋ else -⌊-q⌋

/-- The four branches of the bound-factor case split in `initialize`. -/
inductive RCase
  | c22
  | c23
  | c3
  | other
deriving DecidableEq

/-- Which branch of `initialize` fires for consumption magnitude `c` in a
reaction of order `o`. -/
def caseFor (c o : Nat) : RCase :=
  if c = 2 ∧ o = 2 then .c22
  else if c = 2 ∧ o = 3 then .c23
  else if c = 3 then .c3
  else .other

/-- The `TauArgs` struct of `Tau.cpp`.  Maps keyed by species or reaction
names are total functions on indices holding the C++ default value for
absent keys; the `std::set<Species> reactants` is a duplicate-free list. -/
structure TauArgs where
  HOR : Nat → Nat
  reactants : List Nat
  g_i_lambdas : Nat → Option GiLambda
  g_i : Nat → Int
  epsilon_i : Nat → ℚ
  reactions_reactants : Nat → List Nat
  products : Nat → List Nat
  critical_threshold : Int

/-- The default-constructed `TauArgs` (all maps empty, threshold 10). -/
def init0 : TauArgs :=
  ⟨fun _ => 0, [], fun _ => none, fun _ => 0, fun _ => 0, fun _ => [], fun _ => [], 10⟩

/-- `std::set` insertion on the duplicate-free list of reactant indices. -/
def insertSet (l : List Nat) (x : Nat) : List Nat :=
  if x ∈ l then l else l ++ [x]

/-- `rxn_order` of reaction `r`: the number of species indices it consumes. -/
def reactionOrder (m : Model) (r : Nat) : Nat :=
  ((List.range m.number_species).filter fun t => chg m r t < 0).length

/-- The body of the per-reactant loop of `initialize` (lines 65 to 94 of
`Tau.cpp`): update HOR and `g_i` when the order strictly increases, then
either install a deferred bound-factor closure or set `g_i`/`epsilon_i`. -/
def applyReactant (m : Model) (tol : ℚ) (order : Nat) (r : Nat)
    (args : TauArgs) (t : Nat) : TauArgs :=
  if args.HOR t < order then
    let args1 := { args with
      HOR := Function.update args.HOR t order,
      g_i := Function.update args.g_i t (order : Int) }
    match caseFor (chg m r t).natAbs order with
    | .c22 => { args1 with g_i_lambdas := Function.update args1.g_i_lambdas t (some .g22) }
    | .c23 => { args1 with g_i_lambdas := Function.update args1.g_i_lambdas t (some .g23) }
    | .c3 => { args1 with g_i_lambdas := Function.update args1.g_i_lambdas t (some .g3) }
    | .other => { args1 with
        g_i := Function.update args1.g_i t (order : Int),
        epsilon_i := Function.update args1.epsilon_i t (tol / (order : ℚ)) }
  else args

/-- One iteration of the reaction loop of `initialize`: record the consumed
and produced species of reaction `r`, insert its reactants into the reactant
set, and run the per-reactant HOR update when the reaction has reactants. -/
def initStep (m : Model) (tol : ℚ) (args : TauArgs) (r : Nat) : TauArgs :=
  let rr := (List.range m.number_species).filter fun t => chg m r t < 0
  let prods := (List.range m.number_species).filter fun t => 0 < chg m r t
  let args1 := { args with
    products := Function.update args.products r prods,
    reactions_reactants := Function.update args.reactions_reactants r rr,
    reactants := rr.foldl insertSet args.reactants }
  if 0 < rr.length then rr.foldl (applyReactant m tol rr.length r) args1 else args1

/-- `initialize(model, tau_tol)` from `Tau.cpp` (the name `initialize` is a Lean keyword, hence `initTauArgs`). -/
def initTauArgs (m : Model) (tol : ℚ) : TauArgs :=
  (List.range m.number_reactions).foldl (initStep m tol) init0

/-! ## The step-size selector `select` -/

/-- The list of (consumption magnitude, propensity) pairs accumulated into
`mu_i` and `sigma_i` for species `s` by the first loop of `select` (lines 120
to 137 of `Tau.cpp`): one pair per reaction and per entry of
`reactions_reactants[reaction]` equal to `s` with negative change. -/
def consumedTerms (m : Model) (args : TauArgs) (props : List ℚ) (s : Nat) :
    List (ℚ × ℚ) :=
  (List.range m.number_reactions).foldl (fun acc r =>
    acc ++ ((args.reactions_reactants r).filterMap fun t =>
      if chg m r t < 0 ∧ t = s then
        some ((((chg m r t).natAbs : Nat) : ℚ), propAt props r)
      else none)) []

/-- `mu_i[s]`: the accumulated `consumed * propensity` (Cao, Gillespie,
Petzold 32a). -/
def mu_i (m : Model) (args : TauArgs) (props : List ℚ) (s : Nat) : ℚ :=
  ((consumedTerms m args props s).map fun vp => vp.1 * vp.2).sum

/-- `sigma_i[s]`: the accumulated `consumed^2 * propensity` (Cao, Gillespie,
Petzold 32a). -/
def sigma_i (m : Model) (args : TauArgs) (props : List ℚ) (s : Nat) : ℚ :=
  ((consumedTerms m args props s).map fun vp => vp.1 ^ 2 * vp.2).sum

/-- The system-wide critical flag of `select`: some reaction consumes a
species whose population divided by the consumption magnitude is below the
critical threshold, while that reaction has positive propensity. -/
def criticalFlag (m : Model) (args : TauArgs) (props : List ℚ)
    (state : List Int) : Bool :=
  (List.range m.number_reactions).any fun r =>
    (args.reactions_reactants r).any fun t =>
      decide (chg m r t < 0) &&
        (decide (stateAt state t / (((chg m r t).natAbs : Nat) : ℚ) <
            (args.critical_threshold : ℚ)) &&
          decide (0 < propAt props r))

/-- The `critical_taus` map: `1 / propensity` for every reaction with
positive propensity, keyed by reaction index. -/
def criticalTaus (m : Model) (props : List ℚ) : List (Nat × ℚ) :=
  (List.range m.number_reactions).foldl (fun acc r =>
    if 0 < propAt props r then acc ++ [(r, 1 / propAt props r)] else acc) []

/-- The value component of `*min_element` over a name-keyed map comparing
second components (0 when the map is empty, which `select` never queries). -/
def minSnd : List (Nat × ℚ) → ℚ
  | [] => 0
  | p :: ps => ps.foldl (fun a q => min a q.2) p.2

/-- The net effect of the lambda-consumption loop of `select` (lines 154 to
162 of `Tau.cpp`): every pending closure is evaluated at the current `g_i`
value of its species, the result is stored back into the int-valued `g_i`
(truncating toward zero), `epsilon_i` becomes `tau_tol / g_i`, and the entry
is erased. -/
def drainArgs (args : TauArgs) (tol : ℚ) : TauArgs :=
  { args with
    g_i := fun s =>
      match args.g_i_lambdas s with
      | some l => truncD2I (l.eval ((args.g_i s : Int) : ℚ))
      | none => args.g_i s,
    epsilon_i := fun s =>
      match args.g_i_lambdas s with
      | some l => tol / ((truncD2I (l.eval ((args.g_i s : Int) : ℚ)) : Int) : ℚ)
      | none => args.epsilon_i s,
    g_i_lambdas := fun _ => none }

/-- `max_pop_change_mean` for reactant `s`: `max(epsilon_i[s] *
population[s], 1)`, with `epsilon_i` read after the lambda drain. -/
def maxPopChangeMean (args : TauArgs) (tol : ℚ) (state : List Int)
    (s : Nat) : ℚ :=
  max ((drainArgs args tol).epsilon_i s * stateAt state s) 1

/-- The Cao, Gillespie, Petzold (33) candidate tau for reactant `s`:
`min(|max_pop_change_mean / mu_i|, max_pop_change_sd / sigma_i)`. -/
def tauIEntry (m : Model) (args : TauArgs) (tol : ℚ) (props : List ℚ)
    (state : List Int) (s : Nat) : ℚ :=
  min |maxPopChangeMean args tol state s / mu_i m args props s|
    ((maxPopChangeMean args tol state s) ^ 2 / sigma_i m args props s)

/-- The `tau_i` map of non-critical candidate taus (lines 166 to 175 of
`Tau.cpp`), built after the lambda drain, one entry per reactant species with
positive `mu_i`. -/
def tauIList (m : Model) (args : TauArgs) (tol : ℚ) (props : List ℚ)
    (state : List Int) : List (Nat × ℚ) :=
  args.reactants.foldl (fun acc s =>
    if 0 < mu_i m args props s then
      acc ++ [(s, tauIEntry m args tol props state s)]
    else acc) []

/-- The `critical_tau` local of `select`: smallest critical candidate when
the critical flag is set, 0 (its initial value) otherwise. -/
def criticalTauVal (m : Model) (args : TauArgs) (props : List ℚ)
    (state : List Int) : ℚ :=
  if criticalFlag m args props state then minSnd (criticalTaus m props) else 0

/-- The `non_critical_tau` local of `select`: smallest entry of `tau_i` when
that map is nonempty, 0 (its initial value) otherwise. -/
def nonCriticalTauVal (m : Model) (args : TauArgs) (tol : ℚ) (props : List ℚ)
    (state : List Int) : ℚ :=
  if 0 < (tauIList m args tol props state).length
  then minSnd (tauIList m args tol props state) else 0

/-- The tau selected before the final clamp (lines 186 to 200 of `Tau.cpp`). -/
def preClampTau (m : Model) (args : TauArgs) (tol : ℚ) (props : List ℚ)
    (state : List Int) : ℚ :=
  if criticalFlag m args props state = false then
    nonCriticalTauVal m args tol props state
  else if (tauIList m args tol props state).length = 0 then
    criticalTauVal m args props state
  else
    min (nonCriticalTauVal m args tol props state)
      (criticalTauVal m args props state)

/-- The tau returned by `select` (after the clamp of lines 202 to 213): a
positive tau is floored at `1e-10` and, when the remaining interval to
`save_time` is positive, capped at it; a non-positive tau becomes exactly
`save_time - current_time`. -/
def selectTau (m : Model) (args : TauArgs) (tol : ℚ) (ct st : ℚ)
    (props : List ℚ) (state : List Int) : ℚ :=
  if 0 < preClampTau m args tol props state then
    if 0 < st - ct then
      min (max (preClampTau m args tol props state) (1 / 10000000000)) (st - ct)
    else max (preClampTau m args tol props state) (1 / 10000000000)
  else st - ct

/-- `select(model, tau_args, tau_tol, current_time, save_time, propensities,
populations)`: the returned tau together with the mutated `TauArgs` (the only
mutation with an observable effect is the lambda drain). -/
def select (m : Model) (args : TauArgs) (tol : ℚ) (ct st : ℚ)
    (props : List ℚ) (state : List Int) : ℚ × TauArgs :=
  (selectTau m args tol ct st props state, drainArgs args tol)

/-! ## The Poisson firing sampler `get_reactions`

The RNG is made explicit: `World` carries the state of the process-wide
`std::random_device`, together with the other globals visible to the
translation unit (`interrupted` from `Tau.cpp` and the `random_seed` parsed
by `TauLeapingSimulation.cpp`).  `get_reactions` constructs a fresh
generator from one device draw, exactly as the source does with
`std::mt19937 generator(rd())`.  The mersenne twister and the Poisson
sampling algorithm of `std::poisson_distribution` are implementation
defined, so they enter as parameters `mkGen` and `poisson`; `poisson` takes
the distribution mean and the generator and returns the sampled count and
the advanced generator. -/

/-- Globals surrounding `get_reactions`, with `device` the state of the
shared `std::random_device` entropy stream. -/
structure World (G : Type) where
  device : G
  interrupted : Bool
  random_seed : Int

/-- `tau_step` after the clip of line 226 of `Tau.cpp`. -/
def clipTau (tau ct st : ℚ) : ℚ :=
  if st < ct + tau then st - ct else tau

/-- One Poisson draw per listed reaction, threading a single generator:
the sampling loop of `get_reactions` written as structural recursion. -/
def poissonDraws {Gen : Type} (poisson : ℚ → Gen → Nat × Gen)
    (mean_of : Nat → ℚ) : List Nat → Gen → List (Nat × Nat)
  | [], _ => []
  | i :: is, g =>
    let kg := poisson (mean_of i) g
    (i, kg.1) :: poissonDraws poisson mean_of is kg.2

/-- `get_reactions(model, propensity_values, tau_step, current_time,
save_time)`: returns the pair (reaction-index-keyed firing counts, new
current time) and the world after the call. -/
def get_reactions {G Gen : Type} (deviceDraw : G → Nat × G) (mkGen : Nat → Gen)
    (poisson : ℚ → Gen → Nat × Gen) (m : Model) (props : List ℚ)
    (tau_step ct st : ℚ) (w : World G) :
    (List (Nat × Nat) × ℚ) × World G :=
  let tau1 := clipTau tau_step ct st
  let seedDev := deviceDraw w.device
  let gen := mkGen seedDev.1
  let counts := ((List.range m.number_reactions).foldl
    (fun (acc : List (Nat × Nat) × Gen) i =>
      let kg := poisson (propAt props i * tau1) acc.2
      (acc.1 ++ [(i, kg.1)], kg.2)) ([], gen)).1
  ((counts, ct + tau1), { w with device := seedDev.2 })

/-! ## Per-species trace of the HOR updates of `initialize`

For a fixed species `s`, the builder touches the maps `HOR`, `g_i`,
`epsilon_i` and `g_i_lambdas` at key `s` only from the per-reactant updates
whose reactant is `s`, and each such update depends only on the current
values at `s`.  The evolution of those four values is therefore a fold over
the reactions of a small transition on a four-field record, paired with the
list of case-split branches taken for `s`.  This projection is proved
equivalent to `initTauArgs` below and drives the HOR and bound-factor
theorems. -/

/-- The four `TauArgs` map values at one species. -/
structure SpecState where
  hor : Nat
  g : Int
  eps : ℚ
  lam : Option GiLambda
deriving DecidableEq

/-- The values of the four per-species maps of `args` at species `s`. -/
def fieldsAt (args : TauArgs) (s : Nat) : SpecState :=
  ⟨args.HOR s, args.g_i s, args.epsilon_i s, args.g_i_lambdas s⟩

/-- The conditional per-reactant update of `initialize` seen at one species:
when the order strictly exceeds the current HOR, set HOR and `g_i` to it and
apply the bound-factor case split. -/
def condUpd (m : Model) (tol : ℚ) (o r s : Nat) (st : SpecState) : SpecState :=
  if st.hor < o then
    match caseFor (chg m r s).natAbs o with
    | .c22 => ⟨o, (o : Int), st.eps, some .g22⟩
    | .c23 => ⟨o, (o : Int), st.eps, some .g23⟩
    | .c3 => ⟨o, (o : Int), st.eps, some .g3⟩
    | .other => ⟨o, (o : Int), tol / (o : ℚ), st.lam⟩
  else st

/-- One reaction of the per-species trace: apply `condUpd` and record the
case branch whenever reaction `r` consumes `s` and raises its HOR. -/
def traceStep (m : Model) (tol : ℚ) (s : Nat) (p : SpecState × List RCase)
    (r : Nat) : SpecState × List RCase :=
  if chg m r s < 0 ∧ s < m.number_species ∧ p.1.hor < reactionOrder m r then
    (condUpd m tol (reactionOrder m r) r s p.1,
      p.2 ++ [caseFor (chg m r s).natAbs (reactionOrder m r)])
  else p

/-- The full per-species trace of `initialize` for species `s`. -/
def specTrace (m : Model) (tol : ℚ) (s : Nat) : SpecState × List RCase :=
  (List.range m.number_reactions).foldl (traceStep m tol s) (⟨0, 0, 0, none⟩, [])

/-- The ordered list of case-split branches taken for species `s` while
building `TauArgs` (one entry per HOR-raising update of `s`). -/
def updateEvents (m : Model) (tol : ℚ) (s : Nat) : List RCase :=
  (specTrace m tol s).2

/-- The reactions consuming species `s`, as the specification counts them. -/
def consumers (m : Model) (s : Nat) : List Nat :=
  (List.range m.number_reactions).filter fun r => chg m r s < 0

/-- The maximum order over the reactions consuming `s`, 0 when there are
none: the specification's description of `HOR[s]`. -/
def horSpec (m : Model) (s : Nat) : Nat :=
  ((consumers m s).map (reactionOrder m)).foldl max 0

/-! ## Concrete models used by witnesses and counterexamples -/

/-- One species, one reaction consuming one unit of it (order 1). -/
def M1 : Model := ⟨1, 1, [⟨[-1]⟩]⟩

/-- Three species; the single reaction consumes species 0 with magnitude 2
in a reaction of order 3, so `initialize` installs the `g23` closure. -/
def M3 : Model := ⟨3, 1, [⟨[-2, -1, -1]⟩]⟩

/-- Three species; reaction 0 gives species 0 the (count 2, order 2) case
and installs the `g22` closure, then reaction 1 raises the HOR of species 0
to 3 through the `otherwise` case, which does not remove the closure. -/
def M4 : Model := ⟨3, 2, [⟨[-2, -1, 0]⟩, ⟨[-1, -1, -1]⟩]⟩

/-- A hand-written `TauArgs` for `M1` (the value `initialize` builds for it),
used by witnesses that must evaluate rational arithmetic. -/
def AW1 : TauArgs :=
  ⟨fun _ => 1, [0], fun _ => none, fun _ => 1, fun _ => 3/100,
    fun _ => [0], fun _ => [], 10⟩

/-! ## Helper lemmas on folds and sums -/

theorem mem_foldl_append {α β : Type} (g : β → List α) (l : List β)
    (init : List α) (x : α) :
    x ∈ l.foldl (fun acc r => acc ++ g r) init ↔ x ∈ init ∨ ∃ r ∈ l, x ∈ g r := by
  induction l generalizing init with
  | nil => simp
  | cons r rs ih =>
    rw [List.foldl_cons, ih]
    simp only [List.mem_append, List.mem_cons]
    constructor
    · rintro (⟨h | h⟩ | ⟨r1, hr1, hx⟩)
      · exact Or.inl h
      · exact Or.inr ⟨r, Or.inl rfl, h⟩
      · exact Or.inr ⟨r1, Or.inr hr1, hx⟩
    · rintro (h | ⟨r1, (rfl | hr1), hx⟩)
      · exact Or.inl (Or.inl h)
      · exact Or.inl (Or.inr hx)
      · exact Or.inr ⟨r1, hr1, hx⟩

theorem mem_foldl_append_if {α β : Type} (P : β → Prop) [DecidablePred P]
    (h : β → α) (l : List β) (init : List α) (x : α) :
    x ∈ l.foldl (fun acc r => if P r then acc ++ [h r] else acc) init ↔
      x ∈ init ∨ ∃ r ∈ l, P r ∧ x = h r := by
  induction l generalizing init with
  | nil => simp
  | cons r rs ih =>
    by_cases hp : P r
    · rw [List.foldl_cons, if_pos hp, ih]
      simp only [List.mem_append, List.mem_cons, List.not_mem_nil, or_false]
      constructor
      · rintro (⟨h1 | h1⟩ | ⟨r1, hr1, hp1, hx⟩)
        · exact Or.inl h1
        · exact Or.inr ⟨r, Or.inl rfl, hp, h1⟩
        · exact Or.inr ⟨r1, Or.inr hr1, hp1, hx⟩
      · rintro (h1 | ⟨r1, (rfl | hr1), hp1, hx⟩)
        · exact Or.inl (Or.inl h1)
        · exact Or.inl (Or.inr hx)
        · exact Or.inr ⟨r1, hr1, hp1, hx⟩
    · rw [List.foldl_cons, if_neg hp, ih]
      simp only [List.mem_cons]
      constructor
      · rintro (h1 | ⟨r1, hr1, hp1, hx⟩)
        · exact Or.inl h1
        · exact Or.inr ⟨r1, Or.inr hr1, hp1, hx⟩
      · rintro (h1 | ⟨r1, (rfl | hr1), hp1, hx⟩)
        · exact Or.inl h1
        · exact absurd hp1 hp
        · exact Or.inr ⟨r1, hr1, hp1, hx⟩

theorem foldl_append_if_nil {α β : Type} (P : β → Prop) [DecidablePred P]
    (h : β → α) (l : List β) (init : List α) (hnp : ∀ r ∈ l, ¬ P r) :
    l.foldl (fun acc r => if P r then acc ++ [h r] else acc) init = init := by
  induction l generalizing init with
  | nil => rfl
  | cons r rs ih =>
    rw [List.foldl_cons, if_neg (hnp r (List.mem_cons_self r rs))]
    exact ih _ fun r1 hr1 => hnp r1 (List.mem_cons_of_mem _ hr1)

theorem propAt_nonneg (props : List ℚ) (hp : ∀ q ∈ props, 0 ≤ q) (r : Nat) :
    0 ≤ propAt props r := by
  induction props generalizing r with
  | nil => simp [propAt]
  | cons q qs ih =>
    cases r with
    | zero => simpa [propAt] using hp q (by simp)
    | succ n =>
      simpa [propAt] using ih (fun x hx => hp x (by simp [hx])) n

theorem propAt_eq_zero (props : List ℚ) (hz : ∀ q ∈ props, q = 0) (r : Nat) :
    propAt props r = 0 := by
  induction props generalizing r with
  | nil => simp [propAt]
  | cons q qs ih =>
    cases r with
    | zero => simpa [propAt] using hz q (by simp)
    | succ n =>
      simpa [propAt] using ih (fun x hx => hz x (by simp [hx])) n

theorem consumedTerms_mem (m : Model) (args : TauArgs) (props : List ℚ)
    (s : Nat) (vp : ℚ × ℚ) (hmem : vp ∈ consumedTerms m args props s) :
    1 ≤ vp.1 ∧ ∃ r, vp.2 = propAt props r := by
  rw [consumedTerms, mem_foldl_append] at hmem
  rcases hmem with h | ⟨r, -, h⟩
  · simp at h
  · rw [List.mem_filterMap] at h
    rcases h with ⟨t, -, ht⟩
    by_cases hc : chg m r t < 0 ∧ t = s
    · rw [if_pos hc] at ht
      injection ht with ht
      subst ht
      have h1 : 1 ≤ (chg m r t).natAbs := by
        have := hc.1
        omega
      constructor
      · show (1 : ℚ) ≤ (((chg m r t).natAbs : Nat) : ℚ)
        exact_mod_cast h1
      · exact ⟨r, rfl⟩
    · rw [if_neg hc] at ht
      exact absurd ht (by simp)

theorem sum_map_mul_le_sq (l : List (ℚ × ℚ))
    (h : ∀ vp ∈ l, 1 ≤ vp.1 ∧ 0 ≤ vp.2) :
    (l.map fun vp => vp.1 * vp.2).sum ≤ (l.map fun vp => vp.1 ^ 2 * vp.2).sum := by
  induction l with
  | nil => simp
  | cons vp l ih =>
    simp only [List.map_cons, List.sum_cons]
    have h1 := h vp (by simp)
    have hv : vp.1 ≤ vp.1 ^ 2 := by nlinarith [h1.1]
    have h2 : vp.1 * vp.2 ≤ vp.1 ^ 2 * vp.2 :=
      mul_le_mul_of_nonneg_right hv h1.2
    have h3 := ih fun x hx => h x (by simp [hx])
    linarith

theorem sigma_pos_of_mu_pos (m : Model) (args : TauArgs) (props : List ℚ)
    (s : Nat) (hp : ∀ q ∈ props, 0 ≤ q) (hmu : 0 < mu_i m args props s) :
    0 < sigma_i m args props s := by
  have hle := sum_map_mul_le_sq (consumedTerms m args props s) fun vp hvp => by
    obtain ⟨h1, r, h2⟩ := consumedTerms_mem m args props s vp hvp
    exact ⟨h1, h2 ▸ propAt_nonneg props hp r⟩
  rw [mu_i] at hmu
  rw [sigma_i]
  linarith

/-! ## Claim theorems: the step-size selector -/

/-- Claim C1: for valid inputs with `current_time < save_time`, nonnegative
propensities and at least one positive propensity, `select` returns a tau in
`(0, save_time - current_time]`; moreover a positive pre-clamp tau is first
floored at `1e-10` and then capped at `save_time - current_time`. -/
theorem select_tau_in_range (m : Model) (args : TauArgs) (tol ct st : ℚ)
    (props : List ℚ) (state : List Int)
    (_hp : ∀ q ∈ props, 0 ≤ q)
    (_hpos : ∃ r ∈ List.range m.number_reactions, 0 < propAt props r)
    (hct : ct < st) :
    0 < selectTau m args tol ct st props state ∧
    selectTau m args tol ct st props state ≤ st - ct ∧
    (0 < preClampTau m args tol props state →
      selectTau m args tol ct st props state =
        min (max (preClampTau m args tol props state) (1 / 10000000000))
          (st - ct)) := by
  have hst : 0 < st - ct := by linarith
  rw [selectTau]
  by_cases h : 0 < preClampTau m args tol props state
  · rw [if_pos h, if_pos hst]
    refine ⟨lt_min (lt_of_lt_of_le h (le_max_left _ _)) hst, min_le_right _ _,
      fun _ => rfl⟩
  · rw [if_neg h]
    exact ⟨hst, le_refl _, fun hc => absurd hc h⟩

/-- Witness for C1 on a concrete one-reaction model. -/
theorem select_tau_in_range_witness :
    0 < selectTau M1 (initTauArgs M1 (3/100)) (3/100) 0 1 [1] [20] ∧
    selectTau M1 (initTauArgs M1 (3/100)) (3/100) 0 1 [1] [20] ≤ 1 - 0 ∧
    (0 < preClampTau M1 (initTauArgs M1 (3/100)) (3/100) [1] [20] →
      selectTau M1 (initTauArgs M1 (3/100)) (3/100) 0 1 [1] [20] =
        min (max (preClampTau M1 (initTauArgs M1 (3/100)) (3/100) [1] [20])
          (1 / 10000000000)) (1 - 0)) :=
  select_tau_in_range M1 (initTauArgs M1 (3/100)) (3/100) 0 1 [1] [20]
    (by decide) (by decide) (by decide)

/-- Claim C5: the variance-bound division of `select` is only reached with a
positive `sigma_i`: whenever species `s` has a `tau_i` entry (the guard of
the division) or simply `mu_i[s] > 0`, `sigma_i[s]` is strictly positive, so
zero variance with positive drift never causes a division fault. -/
theorem division_by_sigma_guarded (m : Model) (args : TauArgs) (tol : ℚ)
    (props : List ℚ) (state : List Int) (s : Nat) (v : ℚ)
    (hp : ∀ q ∈ props, 0 ≤ q)
    (hreach : (s, v) ∈ tauIList m args tol props state ∨
      0 < mu_i m args props s) :
    0 < sigma_i m args props s := by
  rcases hreach with h | h
  · rw [tauIList, mem_foldl_append_if] at h
    rcases h with h | ⟨s1, -, hmu, hx⟩
    · simp at h
    · have hs : s = s1 := congrArg Prod.fst hx
      exact sigma_pos_of_mu_pos m args props s hp (hs ▸ hmu)
  · exact sigma_pos_of_mu_pos m args props s hp h

/-- Witness for C5 on a concrete one-reaction model: species 0 has positive
`mu_i`, and the theorem yields a positive `sigma_i`. -/
theorem division_by_sigma_guarded_witness :
    0 < sigma_i M1 AW1 [1] 0 :=
  division_by_sigma_guarded M1 AW1 (3/100) [1] [20] 0
    (tauIEntry M1 AW1 (3/100) [1] [20] 0)
    (by decide)
    (Or.inr (by
      simp +decide [mu_i, consumedTerms, AW1, M1, chg, propAt, List.range_succ]))

/-- Claim C6: with all propensities zero and `current_time < save_time`,
`select` sets no critical flag, computes no `tau_i` entries, and returns
exactly `save_time - current_time`. -/
theorem select_all_zero_propensities (m : Model) (args : TauArgs)
    (tol ct st : ℚ) (props : List ℚ) (state : List Int)
    (hz : ∀ q ∈ props, q = 0) (_hct : ct < st) :
    criticalFlag m args props state = false ∧
    tauIList m args tol props state = [] ∧
    selectTau m args tol ct st props state = st - ct := by
  have hprop : ∀ r, propAt props r = 0 := propAt_eq_zero props hz
  have hcf : criticalFlag m args props state = false := by
    rw [criticalFlag, List.any_eq_false]
    intro r _
    have h0 : decide (0 < propAt props r) = false := by
      rw [hprop r]
      decide
    simp [h0]
  have hmu : ∀ s, mu_i m args props s = 0 := by
    intro s
    rw [mu_i]
    apply List.sum_eq_zero
    intro x hx
    rw [List.mem_map] at hx
    obtain ⟨vp, hvp, rfl⟩ := hx
    obtain ⟨-, r, h2⟩ := consumedTerms_mem m args props s vp hvp
    rw [h2, hprop r, mul_zero]
  have htl : tauIList m args tol props state = [] := by
    rw [tauIList]
    exact foldl_append_if_nil _ _ _ _ fun s _ => by rw [hmu s]; exact lt_irrefl 0
  have hpc : preClampTau m args tol props state = 0 := by
    rw [preClampTau, hcf, if_pos rfl, nonCriticalTauVal, htl]
    simp
  refine ⟨hcf, htl, ?_⟩
  rw [selectTau, hpc]
  simp

/-- Witness for C6 on a concrete one-reaction model with zero propensity. -/
theorem select_all_zero_propensities_witness :
    criticalFlag M1 (initTauArgs M1 (3/100)) [0] [20] = false ∧
    tauIList M1 (initTauArgs M1 (3/100)) (3/100) [0] [20] = [] ∧
    selectTau M1 (initTauArgs M1 (3/100)) (3/100) 0 1 [0] [20] = 1 - 0 :=
  select_all_zero_propensities M1 (initTauArgs M1 (3/100)) (3/100) 0 1 [0] [20]
    (by decide) (by decide)

/-- Claim C2: any call to `select` leaves no pending deferred bound function
(they are evaluated and erased), and a further call to `select` on the
resulting `TauArgs`, with any arguments, changes neither `g_i` nor
`epsilon_i` of any species. -/
theorem deferred_bound_consumed_once (m : Model) (args : TauArgs)
    (tol ct st : ℚ) (props : List ℚ) (state : List Int) (m2 : Model)
    (tol2 ct2 st2 : ℚ) (props2 : List ℚ) (state2 : List Int) (s : Nat) :
    (select m args tol ct st props state).2.g_i_lambdas s = none ∧
    (select m2 (select m args tol ct st props state).2 tol2 ct2 st2 props2
        state2).2.g_i s = (select m args tol ct st props state).2.g_i s ∧
    (select m2 (select m args tol ct st props state).2 tol2 ct2 st2 props2
        state2).2.epsilon_i s
      = (select m args tol ct st props state).2.epsilon_i s :=
  ⟨rfl, rfl, rfl⟩

/-- Claim C10: when `select` consumes a pending bound function, the real
result is truncated toward zero into the int-valued `g_i`, and `epsilon_i`
becomes `tau_tol` divided by that truncated integer. -/
theorem select_truncates_refined_g (m : Model) (args : TauArgs)
    (tol ct st : ℚ) (props : List ℚ) (state : List Int) (s : Nat)
    (l : GiLambda) (h : args.g_i_lambdas s = some l) :
    (select m args tol ct st props state).2.g_i s
        = truncD2I (l.eval ((args.g_i s : Int) : ℚ)) ∧
    (select m args tol ct st props state).2.epsilon_i s
        = tol / ((truncD2I (l.eval ((args.g_i s : Int) : ℚ)) : Int) : ℚ) := by
  constructor <;> simp [select, drainArgs, h]

/-- Witness for C10: on `M3` the pending `g23` closure of species 0 is
evaluated at `g_i = 3`, giving `5/2`, which truncates to `2`. -/
theorem select_truncates_refined_g_witness :
    ((select M3 (initTauArgs M3 (3/100)) (3/100) 0 1 [0] [5, 5, 5]).2.g_i 0
        = truncD2I (GiLambda.eval GiLambda.g23
          (((initTauArgs M3 (3/100)).g_i 0 : Int) : ℚ)) ∧
      (select M3 (initTauArgs M3 (3/100)) (3/100) 0 1 [0] [5, 5, 5]).2.epsilon_i 0
        = (3/100) / ((truncD2I (GiLambda.eval GiLambda.g23
          (((initTauArgs M3 (3/100)).g_i 0 : Int) : ℚ)) : Int) : ℚ)) ∧
    (initTauArgs M3 (3/100)).g_i 0 = 3 ∧
    GiLambda.eval GiLambda.g23 ((3 : Int) : ℚ) = 5/2 ∧
    truncD2I (5/2) = 2 :=
  ⟨select_truncates_refined_g M3 (initTauArgs M3 (3/100)) (3/100) 0 1 [0]
      [5, 5, 5] 0 GiLambda.g23 (by decide),
    by decide,
    by
      have h32 : ((3 : Int) / 2) = 1 := by decide
      rw [GiLambda.eval, h32]
      norm_num,
    by
      rw [truncD2I, if_pos (by norm_num)]
      norm_num⟩

/-- Claim C3 (failing): the claim states that for a reactant with
consumption magnitude 2 in a reaction of order 3 the installed bound
function computes `1.5 * (2 + 1/(x-1))`, but the C++ source computes the
factor `3 / 2` in integer arithmetic, so the installed function is
`1 * (2 + 1/(x-1))`: at `x = 3` the code yields `5/2`, not `15/4`. -/
theorem g23_integer_division_bug :
    (initTauArgs M3 (3/100)).g_i_lambdas 0 = some GiLambda.g23 ∧
    GiLambda.eval GiLambda.g23 3 = 5/2 ∧
    ¬ GiLambda.eval GiLambda.g23 3 = (3/2 : ℚ) * (2 + 1/((3 : ℚ) - 1)) := by
  have h32 : ((3 : Int) / 2) = 1 := by decide
  refine ⟨by decide, ?_, ?_⟩
  · rw [GiLambda.eval, h32]
    norm_num
  · rw [GiLambda.eval, h32]
    norm_num

/-! ## Claim theorems: the Poisson firing sampler -/

theorem foldl_poisson_eq_draws {Gen : Type} (poisson : ℚ → Gen → Nat × Gen)
    (mean_of : Nat → ℚ) (l : List Nat) (g : Gen) (acc : List (Nat × Nat)) :
    (l.foldl (fun (a : List (Nat × Nat) × Gen) i =>
      (a.1 ++ [(i, (poisson (mean_of i) a.2).1)], (poisson (mean_of i) a.2).2))
      (acc, g)).1 = acc ++ poissonDraws poisson mean_of l g := by
  induction l generalizing g acc with
  | nil => simp [poissonDraws]
  | cons i is ih =>
    rw [List.foldl_cons, ih, poissonDraws]
    simp

/-- Claim C8: `get_reactions` first clips `tau_step` so that
`current_time + tau_step ≤ save_time`, then returns
`new_time = current_time + tau_step`, never exceeding `save_time`. -/
theorem get_reactions_new_time_le_save_time {G Gen : Type}
    (deviceDraw : G → Nat × G) (mkGen : Nat → Gen)
    (poisson : ℚ → Gen → Nat × Gen) (m : Model) (props : List ℚ)
    (tau_step ct st : ℚ) (w : World G) (_hct : ct ≤ st) :
    ((get_reactions deviceDraw mkGen poisson m props tau_step ct st w).1).2
        = ct + clipTau tau_step ct st ∧
    ct + clipTau tau_step ct st ≤ st ∧
    ((get_reactions deviceDraw mkGen poisson m props tau_step ct st w).1).2
        ≤ st := by
  have hle : ct + clipTau tau_step ct st ≤ st := by
    rw [clipTau]
    by_cases h : st < ct + tau_step
    · rw [if_pos h]
      linarith
    · rw [if_neg h]
      linarith
  exact ⟨rfl, hle, hle⟩

/-- Witness for C8 with a `tau_step` that overshoots `save_time`. -/
theorem get_reactions_new_time_le_save_time_witness :
    ((get_reactions (fun n => (n, n + 1)) id (fun _ g => (0, g + 1)) M1 [1]
        5 0 1 (World.mk 0 false 0)).1).2 = 0 + clipTau 5 0 1 ∧
    (0 : ℚ) + clipTau 5 0 1 ≤ 1 ∧
    ((get_reactions (fun n => (n, n + 1)) id (fun _ g => (0, g + 1)) M1 [1]
        5 0 1 (World.mk 0 false 0)).1).2 ≤ 1 :=
  get_reactions_new_time_le_save_time (fun n => (n, n + 1)) id
    (fun _ g => (0, g + 1)) M1 [1] 5 0 1 (World.mk 0 false 0) (by norm_num)

/-- Claim C9: `get_reactions` is a pure function of its explicit inputs and
the RNG state: two calls whose worlds agree on the device stream return the
same counts and time, the call reads and writes no other world component,
and the counts are one threaded Poisson draw per reaction with mean
`propensity[r] * tau_step` (after the clip), all from the single generator
seeded by the device draw. -/
theorem get_reactions_pure {G Gen : Type} (deviceDraw : G → Nat × G)
    (mkGen : Nat → Gen) (poisson : ℚ → Gen → Nat × Gen) (m : Model)
    (props : List ℚ) (tau_step ct st : ℚ) (w1 w2 : World G)
    (hdev : w1.device = w2.device) :
    (get_reactions deviceDraw mkGen poisson m props tau_step ct st w1).1
        = (get_reactions deviceDraw mkGen poisson m props tau_step ct st w2).1 ∧
    ((get_reactions deviceDraw mkGen poisson m props tau_step ct st w1).2).interrupted
        = w1.interrupted ∧
    ((get_reactions deviceDraw mkGen poisson m props tau_step ct st w1).2).random_seed
        = w1.random_seed ∧
    ((get_reactions deviceDraw mkGen poisson m props tau_step ct st w1).1).1
        = poissonDraws poisson (fun i => propAt props i * clipTau tau_step ct st)
            (List.range m.number_reactions) (mkGen (deviceDraw w1.device).1) := by
  refine ⟨?_, rfl, rfl, ?_⟩
  · rw [get_reactions, get_reactions, hdev]
  · rw [get_reactions]
    exact foldl_poisson_eq_draws poisson _ _ _ []

/-- Witness for C9: two worlds with equal device streams but different
`interrupted` and `random_seed` fields produce identical results. -/
theorem get_reactions_pure_witness :
    (get_reactions (fun (n : Nat) => (n, n + 1)) id (fun _ g => (g, g + 1)) M1
        [1] 5 0 1 (World.mk 0 true 5)).1
      = (get_reactions (fun (n : Nat) => (n, n + 1)) id (fun _ g => (g, g + 1))
        M1 [1] 5 0 1 (World.mk 0 false 7)).1 ∧
    ((get_reactions (fun (n : Nat) => (n, n + 1)) id (fun _ g => (g, g + 1)) M1
        [1] 5 0 1 (World.mk 0 true 5)).2).interrupted = true ∧
    ((get_reactions (fun (n : Nat) => (n, n + 1)) id (fun _ g => (g, g + 1)) M1
        [1] 5 0 1 (World.mk 0 true 5)).2).random_seed = 5 ∧
    ((get_reactions (fun (n : Nat) => (n, n + 1)) id (fun _ g => (g, g + 1)) M1
        [1] 5 0 1 (World.mk 0 true 5)).1).1
      = poissonDraws (fun _ g => (g, g + 1))
          (fun i => propAt [1] i * clipTau 5 0 1)
          (List.range M1.number_reactions) (id (((fun (n : Nat) => (n, n + 1)) 0).1)) :=
  get_reactions_pure (fun n => (n, n + 1)) id (fun _ g => (g, g + 1)) M1 [1]
    5 0 1 (World.mk 0 true 5) (World.mk 0 false 7) rfl

/-! ## Bridging `initialize` to the per-species trace -/

theorem applyReactant_fieldsAt_self (m : Model) (tol : ℚ) (o r : Nat)
    (args : TauArgs) (s : Nat) :
    fieldsAt (applyReactant m tol o r args s) s
      = condUpd m tol o r s (fieldsAt args s) := by
  unfold applyReactant condUpd
  by_cases h : args.HOR s < o
  · rw [if_pos h, if_pos (show (fieldsAt args s).hor < o from h)]
    cases hc : caseFor (chg m r s).natAbs o <;>
      simp [hc, fieldsAt, Function.update_same]
  · rw [if_neg h, if_neg (show ¬ (fieldsAt args s).hor < o from h)]

theorem applyReactant_fieldsAt_ne (m : Model) (tol : ℚ) (o r : Nat)
    (args : TauArgs) (t s : Nat) (hts : t ≠ s) :
    fieldsAt (applyReactant m tol o r args t) s = fieldsAt args s := by
  unfold applyReactant
  by_cases h : args.HOR t < o
  · rw [if_pos h]
    cases hc : caseFor (chg m r t).natAbs o <;>
      simp [hc, fieldsAt, Function.update_noteq (Ne.symm hts)]
  · rw [if_neg h]

theorem foldl_applyReactant_not_mem (m : Model) (tol : ℚ) (o r : Nat)
    (l : List Nat) (args : TauArgs) (s : Nat) (hs : s ∉ l) :
    fieldsAt (l.foldl (applyReactant m tol o r) args) s = fieldsAt args s := by
  induction l generalizing args with
  | nil => rfl
  | cons t ts ih =>
    rw [List.foldl_cons,
      ih (applyReactant m tol o r args t)
        (fun h => hs (List.mem_cons_of_mem _ h)),
      applyReactant_fieldsAt_ne m tol o r args t s
        (fun he => hs (he ▸ List.mem_cons_self t ts))]

theorem foldl_applyReactant_mem (m : Model) (tol : ℚ) (o r : Nat)
    (l : List Nat) (hnd : l.Nodup) (args : TauArgs) (s : Nat) :
    fieldsAt (l.foldl (applyReactant m tol o r) args) s =
      if s ∈ l then condUpd m tol o r s (fieldsAt args s)
      else fieldsAt args s := by
  induction l generalizing args with
  | nil => simp
  | cons t ts ih =>
    rcases List.nodup_cons.mp hnd with ⟨hts, hnd2⟩
    rw [List.foldl_cons]
    by_cases hts2 : t = s
    · subst hts2
      rw [foldl_applyReactant_not_mem m tol o r ts _ t hts,
        applyReactant_fieldsAt_self]
      simp
    · rw [ih hnd2, applyReactant_fieldsAt_ne m tol o r args t s hts2]
      by_cases hsts : s ∈ ts
      · simp [hsts]
      · simp [hsts, List.mem_cons, (Ne.symm hts2 : s ≠ t)]

theorem initStep_fieldsAt (m : Model) (tol : ℚ) (args : TauArgs) (r s : Nat) :
    fieldsAt (initStep m tol args r) s =
      if chg m r s < 0 ∧ s < m.number_species then
        condUpd m tol (reactionOrder m r) r s (fieldsAt args s)
      else fieldsAt args s := by
  have hmem : (s ∈ (List.range m.number_species).filter fun t => chg m r t < 0)
      ↔ (chg m r s < 0 ∧ s < m.number_species) := by
    simp only [List.mem_filter, List.mem_range, decide_eq_true_eq]
    exact and_comm
  have hnd : ((List.range m.number_species).filter
      fun t => chg m r t < 0).Nodup := (List.nodup_range _).filter _
  simp only [initStep]
  by_cases h : 0 < ((List.range m.number_species).filter
      fun t => chg m r t < 0).length
  · rw [if_pos h, foldl_applyReactant_mem m tol _ r _ hnd]
    by_cases hc : chg m r s < 0 ∧ s < m.number_species
    · rw [if_pos (hmem.mpr hc), if_pos hc]
      rfl
    · rw [if_neg (fun hs => hc (hmem.mp hs)), if_neg hc]
      rfl
  · rw [if_neg h]
    have hnc : ¬ (chg m r s < 0 ∧ s < m.number_species) := by
      intro hc
      exact h (List.length_pos.mpr (List.ne_nil_of_mem (hmem.mpr hc)))
    rw [if_neg hnc]
    rfl

theorem traceStep_fst (m : Model) (tol : ℚ) (s : Nat)
    (p : SpecState × List RCase) (r : Nat) :
    (traceStep m tol s p r).1 =
      if chg m r s < 0 ∧ s < m.number_species then
        condUpd m tol (reactionOrder m r) r s p.1
      else p.1 := by
  unfold traceStep
  by_cases h1 : chg m r s < 0 ∧ s < m.number_species
  · rw [if_pos h1]
    by_cases h2 : p.1.hor < reactionOrder m r
    · rw [if_pos ⟨h1.1, h1.2, h2⟩]
    · rw [if_neg (fun hh => h2 hh.2.2), condUpd, if_neg h2]
  · rw [if_neg h1, if_neg (fun hh => h1 ⟨hh.1, hh.2.1⟩)]

theorem foldl_init_trace (m : Model) (tol : ℚ) (s : Nat) (L : List Nat) :
    ∀ (args : TauArgs) (p : SpecState × List RCase), fieldsAt args s = p.1 →
      fieldsAt (L.foldl (initStep m tol) args) s =
        (L.foldl (traceStep m tol s) p).1 := by
  induction L with
  | nil => exact fun args p h => h
  | cons r L ih =>
    intro args p h
    rw [List.foldl_cons, List.foldl_cons]
    apply ih
    rw [initStep_fieldsAt, traceStep_fst, h]

theorem initTauArgs_fieldsAt (m : Model) (tol : ℚ) (s : Nat) :
    fieldsAt (initTauArgs m tol) s = (specTrace m tol s).1 :=
  foldl_init_trace m tol s (List.range m.number_reactions) init0
    (⟨0, 0, 0, none⟩, []) rfl

theorem condUpd_hor (m : Model) (tol : ℚ) (o r s : Nat) (st : SpecState) :
    (condUpd m tol o r s st).hor = if st.hor < o then o else st.hor := by
  unfold condUpd
  by_cases h : st.hor < o
  · rw [if_pos h, if_pos h]
    cases hc : caseFor (chg m r s).natAbs o <;> simp [hc]
  · rw [if_neg h, if_neg h]

theorem trace_hor_fold (m : Model) (tol : ℚ) (s : Nat) (L : List Nat) :
    ∀ p : SpecState × List RCase,
      ((L.foldl (traceStep m tol s) p).1).hor =
        L.foldl (fun a r => if chg m r s < 0 ∧ s < m.number_species
          then max a (reactionOrder m r) else a) p.1.hor := by
  induction L with
  | nil => exact fun p => rfl
  | cons r L ih =>
    intro p
    rw [List.foldl_cons, List.foldl_cons, ih]
    congr 1
    rw [traceStep_fst]
    by_cases h1 : chg m r s < 0 ∧ s < m.number_species
    · rw [if_pos h1, if_pos h1, condUpd_hor]
      by_cases h2 : p.1.hor < reactionOrder m r
      · rw [if_pos h2, Nat.max_eq_right (Nat.le_of_lt h2)]
      · rw [if_neg h2, Nat.max_eq_left (Nat.le_of_not_lt h2)]
    · rw [if_neg h1, if_neg h1]

theorem foldl_max_filter (P : Nat → Prop) [DecidablePred P] (f : Nat → Nat)
    (L : List Nat) : ∀ a : Nat,
    L.foldl (fun a r => if P r then max a (f r) else a) a =
      ((L.filter fun r => decide (P r)).map f).foldl max a := by
  induction L with
  | nil => exact fun a => rfl
  | cons r L ih =>
    intro a
    rw [List.foldl_cons]
    by_cases h : P r
    · rw [if_pos h, List.filter_cons_of_pos (by simpa using h), List.map_cons,
        List.foldl_cons, ih]
    · rw [if_neg h, List.filter_cons_of_neg (by simpa using h), ih]

theorem chg_out_of_range (m : Model) (hWF : m.WF) (s : Nat)
    (hs : m.number_species ≤ s) (r : Nat) : chg m r s = 0 := by
  unfold chg
  by_cases h : r < m.reactions.length
  · have hmem : m.reactions.getD r ⟨[]⟩ ∈ m.reactions := by
      rw [List.getD_eq_getElem m.reactions ⟨[]⟩ h]
      exact List.getElem_mem h
    have hlen := hWF.2 _ hmem
    exact List.getD_eq_default _ _ (hlen ▸ hs)
  · rw [List.getD_eq_default _ _ (Nat.le_of_not_lt h)]
    rfl

/-- Claim C7: after `initialize`, `HOR[s]` is the maximum order over the
reactions consuming `s` (order = number of distinct consumed species), and
0 when no reaction consumes `s`. -/
theorem HOR_eq_max_consuming_order (m : Model) (tol : ℚ) (s : Nat)
    (hWF : m.WF) :
    (initTauArgs m tol).HOR s = horSpec m s ∧
    (consumers m s = [] → (initTauArgs m tol).HOR s = 0) := by
  have h1 : (initTauArgs m tol).HOR s = (specTrace m tol s).1.hor :=
    congrArg SpecState.hor (initTauArgs_fieldsAt m tol s)
  have hfilter : ((List.range m.number_reactions).filter
      fun r => decide (chg m r s < 0 ∧ s < m.number_species))
        = consumers m s := by
    rw [consumers]
    apply List.filter_congr
    intro r _
    by_cases hs : s < m.number_species
    · simp [hs]
    · have h0 : chg m r s = 0 := chg_out_of_range m hWF s (Nat.le_of_not_lt hs) r
      simp [h0, hs]
  have hmain : (initTauArgs m tol).HOR s = horSpec m s := by
    rw [h1, specTrace, trace_hor_fold,
      foldl_max_filter (fun r => chg m r s < 0 ∧ s < m.number_species)
        (reactionOrder m), hfilter, horSpec]
  exact ⟨hmain, fun hc => by rw [hmain, horSpec, hc]; rfl⟩

/-- Witness for C7 on `M4`: species 0 is consumed by an order-2 and an
order-3 reaction. -/
theorem HOR_eq_max_consuming_order_witness :
    (initTauArgs M4 (3/100)).HOR 0 = horSpec M4 0 ∧
    (consumers M4 0 = [] → (initTauArgs M4 (3/100)).HOR 0 = 0) :=
  HOR_eq_max_consuming_order M4 (3/100) 0 (by decide)

/-! ## The deferred-bound case trace and claim C4 -/

theorem trace_events_append (m : Model) (tol : ℚ) (s : Nat) (L : List Nat) :
    ∀ p : SpecState × List RCase, ∃ t : List RCase,
      (L.foldl (traceStep m tol s) p).2 = p.2 ++ t := by
  induction L with
  | nil => exact fun p => ⟨[], (List.append_nil _).symm⟩
  | cons r L ih =>
    intro p
    rw [List.foldl_cons]
    obtain ⟨t, ht⟩ := ih (traceStep m tol s p r)
    rw [ht]
    unfold traceStep
    by_cases h : chg m r s < 0 ∧ s < m.number_species ∧
        p.1.hor < reactionOrder m r
    · rw [if_pos h]
      exact ⟨caseFor (chg m r s).natAbs (reactionOrder m r) :: t, by simp⟩
    · rw [if_neg h]
      exact ⟨t, rfl⟩

theorem trace_good (m : Model) (tol : ℚ) (s : Nat) (L : List Nat) :
    ∀ p : SpecState × List RCase,
      (p.1.g = (p.1.hor : Int) ∧ p.1.eps = tol / (p.1.hor : ℚ) ∧
        p.1.lam = none) →
      (∀ c ∈ (L.foldl (traceStep m tol s) p).2, c = RCase.other) →
      ((L.foldl (traceStep m tol s) p).1.g
          = ((L.foldl (traceStep m tol s) p).1.hor : Int) ∧
        (L.foldl (traceStep m tol s) p).1.eps
          = tol / ((L.foldl (traceStep m tol s) p).1.hor : ℚ) ∧
        (L.foldl (traceStep m tol s) p).1.lam = none) := by
  induction L with
  | nil => exact fun p hg _ => hg
  | cons r L ih =>
    intro p hg hall
    rw [List.foldl_cons] at hall ⊢
    refine ih (traceStep m tol s p r) ?_ hall
    by_cases h : chg m r s < 0 ∧ s < m.number_species ∧
        p.1.hor < reactionOrder m r
    · have hcase : caseFor (chg m r s).natAbs (reactionOrder m r)
          = RCase.other := by
        obtain ⟨t, ht⟩ := trace_events_append m tol s L (traceStep m tol s p r)
        apply hall
        rw [ht]
        unfold traceStep
        rw [if_pos h]
        simp
      unfold traceStep
      rw [if_pos h]
      show (condUpd m tol (reactionOrder m r) r s p.1).g = _ ∧ _ ∧ _
      unfold condUpd
      rw [if_pos h.2.2, hcase]
      exact ⟨rfl, rfl, hg.2.2⟩
    · unfold traceStep
      rw [if_neg h]
      exact hg

/-- Counterexample to claim C4 as stated: in `M4` the final HOR-raising
update of species 0 takes the `otherwise` case, yet the `TauArgs` returned
by `initialize` still carries the `g22` closure installed by the earlier
(count 2, order 2) update — the `otherwise` branch does not remove it — and
a later `select` call rewrites `g_i` (and `epsilon_i`) of that species. -/
theorem final_otherwise_leaves_stale_lambda :
    (updateEvents M4 (3/100) 0).getLast? = some RCase.other ∧
    (initTauArgs M4 (3/100)).g_i_lambdas 0 = some GiLambda.g22 ∧
    (select M4 (initTauArgs M4 (3/100)) (3/100) 0 1 [0, 0] [5, 5, 5]).2.g_i 0
      ≠ (initTauArgs M4 (3/100)).g_i 0 := by
  have h1 : (initTauArgs M4 (3/100)).g_i_lambdas 0 = some GiLambda.g22 := by
    decide
  have h2 : (initTauArgs M4 (3/100)).g_i 0 = 3 := by decide
  refine ⟨by decide, h1, ?_⟩
  have h3 : (select M4 (initTauArgs M4 (3/100)) (3/100) 0 1 [0, 0]
      [5, 5, 5]).2.g_i 0
      = truncD2I (GiLambda.eval GiLambda.g22
          (((initTauArgs M4 (3/100)).g_i 0 : Int) : ℚ)) := by
    simp [select, drainArgs, h1]
  rw [h3, h2]
  have h4 : GiLambda.eval GiLambda.g22 ((3 : Int) : ℚ) = 5/2 := by
    rw [GiLambda.eval]
    norm_num
  rw [h4, truncD2I, if_pos (by norm_num)]
  norm_num

/-- Claim C4 (amended): for a species all of whose HOR-raising updates take
the `otherwise` case (at least one), `initialize` returns
`g_i[s] = HOR[s]`, `epsilon_i[s] = tau_tol / HOR[s]` and no pending deferred
function, and a later `select` call leaves `g_i[s]` and `epsilon_i[s]`
unchanged.  (The original claim asked this whenever only the final update is
the `otherwise` case; that fails because the `otherwise` branch does not
remove a function installed by an earlier update.) -/
theorem otherwise_case_sets_g_and_epsilon (m : Model) (tol : ℚ) (s : Nat)
    (ct st2 : ℚ) (props : List ℚ) (state : List Int)
    (_hne : updateEvents m tol s ≠ [])
    (hall : ∀ c ∈ updateEvents m tol s, c = RCase.other) :
    (initTauArgs m tol).g_i s = ((initTauArgs m tol).HOR s : Int) ∧
    (initTauArgs m tol).epsilon_i s = tol / ((initTauArgs m tol).HOR s : ℚ) ∧
    (initTauArgs m tol).g_i_lambdas s = none ∧
    (select m (initTauArgs m tol) tol ct st2 props state).2.g_i s
        = (initTauArgs m tol).g_i s ∧
    (select m (initTauArgs m tol) tol ct st2 props state).2.epsilon_i s
        = (initTauArgs m tol).epsilon_i s := by
  have hbridge := initTauArgs_fieldsAt m tol s
  have hgood := trace_good m tol s (List.range m.number_reactions)
    (⟨0, 0, 0, none⟩, []) ⟨rfl, by simp, rfl⟩ hall
  have e0 : (initTauArgs m tol).HOR s = (specTrace m tol s).1.hor :=
    congrArg SpecState.hor hbridge
  have e1 : (initTauArgs m tol).g_i s = (specTrace m tol s).1.g :=
    congrArg SpecState.g hbridge
  have e2 : (initTauArgs m tol).epsilon_i s = (specTrace m tol s).1.eps :=
    congrArg SpecState.eps hbridge
  have e3 : (initTauArgs m tol).g_i_lambdas s = (specTrace m tol s).1.lam :=
    congrArg SpecState.lam hbridge
  have hlam : (initTauArgs m tol).g_i_lambdas s = none := by
    rw [e3]
    exact hgood.2.2
  refine ⟨?_, ?_, hlam, ?_, ?_⟩
  · rw [e1, e0]
    exact hgood.1
  · rw [e2, e0]
    exact hgood.2.1
  · simp [select, drainArgs, hlam]
  · simp [select, drainArgs, hlam]

/-- Witness for the amended C4 on `M1`, whose single update of species 0 is
the `otherwise` case. -/
theorem otherwise_case_sets_g_and_epsilon_witness :
    (initTauArgs M1 (3/100)).g_i 0 = ((initTauArgs M1 (3/100)).HOR 0 : Int) ∧
    (initTauArgs M1 (3/100)).epsilon_i 0
        = (3/100) / ((initTauArgs M1 (3/100)).HOR 0 : ℚ) ∧
    (initTauArgs M1 (3/100)).g_i_lambdas 0 = none ∧
    (select M1 (initTauArgs M1 (3/100)) (3/100) 0 1 [1] [20]).2.g_i 0
        = (initTauArgs M1 (3/100)).g_i 0 ∧
    (select M1 (initTauArgs M1 (3/100)) (3/100) 0 1 [1] [20]).2.epsilon_i 0
        = (initTauArgs M1 (3/100)).epsilon_i 0 :=
  otherwise_case_sets_g_and_epsilon M1 (3/100) 0 0 1 [1] [20]
    (by decide) (by decide)

end GillesPy
